import Mathlib

/-!
Verification of the multimodal-RAG document pipeline against its
specification.  The Python sources under src/core are shallowly embedded:
the image cache (image_handler.py) becomes explicit state passing over a
`CacheState`, the PDF text-extraction fallback chain (pdf_processor.py)
becomes a function over an abstract model of the two extractor libraries,
and the prompt assembly / marker rendering (multimodal_query.py,
openai_client.py) become pure list-building functions.
-/

set_option maxRecDepth 4096

namespace MultimodalRAG

/-- Image metadata as stored by process_single_pdf (rag_engine.py lines
92-96): the dict with keys "file_name", "page", "type". -/
structure ImgMeta where
  fileName : String
  page : Nat
  kind : String
deriving DecidableEq

/-- A registry entry of ImageCache: the dict {"path", "metadata", "size"}
recorded by add_image (image_handler.py lines 43-47). -/
structure Entry where
  path : String
  meta : ImgMeta
  size : Nat
deriving DecidableEq

/-- Python dict lookup, on an insertion-ordered association list. -/
def getA {κ α : Type} [DecidableEq κ] (l : List (κ × α)) (k : κ) : Option α :=
  match l with
  | [] => none
  | (k1, v) :: rest => if k1 = k then some v else getA rest k

/-- Python dict assignment `d[k] = v`: update in place when the key is
present (keeping its position), append otherwise. -/
def setA {κ α : Type} [DecidableEq κ] (l : List (κ × α)) (k : κ) (v : α) : List (κ × α) :=
  match l with
  | [] => [(k, v)]
  | (k1, v1) :: rest => if k1 = k then (k, v) :: rest else (k1, v1) :: setA rest k v

/-- Python `del d[k]`: drop the first binding of k. -/
def delA {κ α : Type} [DecidableEq κ] (l : List (κ × α)) (k : κ) : List (κ × α) :=
  match l with
  | [] => []
  | (k1, v1) :: rest => if k1 = k then rest else (k1, v1) :: delA rest k

/-- The state of an ImageCache object (image_handler.py lines 20-26)
together with the contents of its cache directory on disk, modelled as a
map from file path to on-disk byte size.  current_memory is a Python
int, hence an integer. -/
structure CacheState where
  cacheDir : String
  maxMemoryBytes : Nat
  currentMemory : Int
  registry : List (String × Entry)
  disk : List (String × Nat)
deriving DecidableEq

/-- ImageCache._get_cache_path: self.cache_dir / (md5(image_id) ++ ".png").
The md5 hex digest is modelled as an injective encoding of the id (the
spec treats the hash as collision-free). -/
def get_cache_path (cacheDir : String) (imageId : String) : String :=
  cacheDir ++ "/" ++ imageId ++ ".png"

/-- ImageCache.__init__ with an initially empty cache directory. -/
def initCache (cacheDir : String) (maxMemoryMb : Nat) : CacheState :=
  ⟨cacheDir, maxMemoryMb * 1024 * 1024, 0, [], []⟩

/-- ImageCache._remove_image: unlink the entry's file when it exists,
subtract the recorded size from current_memory, delete the registry
entry.  A miss leaves the state unchanged. -/
def remove_image (st : CacheState) (imageId : String) : CacheState :=
  match getA st.registry imageId with
  | none => st
  | some e =>
      { st with
        disk := delA st.disk e.path
        currentMemory := st.currentMemory - (e.size : Int)
        registry := delA st.registry imageId }

/-- ImageCache._cleanup_old_images: remove the first half of the registry
keys in insertion order (lines 83-88; this is the whole eviction pass). -/
def cleanup_old_images (st : CacheState) : CacheState :=
  ((st.registry.map Prod.fst).take (st.registry.length / 2)).foldl remove_image st

/-- The store-and-register part of add_image (lines 36-49), before the
memory-limit check: write the PNG to the cache path (fileSize is the size
of the written file), record the registry entry, and do the raw
`current_memory += file_size` increment. -/
def add_image_store (st : CacheState) (imageId : String) (fileSize : Nat) (meta : ImgMeta) :
    CacheState :=
  let p := get_cache_path st.cacheDir imageId
  { st with
    disk := setA st.disk p fileSize
    registry := setA st.registry imageId ⟨p, meta, fileSize⟩
    currentMemory := st.currentMemory + (fileSize : Int) }

/-- ImageCache.add_image: store and register, then run the cleanup pass
when current_memory exceeds max_memory_bytes (lines 52-54).  File-system
write failures are not modelled. -/
def add_image (st : CacheState) (imageId : String) (fileSize : Nat) (meta : ImgMeta) :
    CacheState :=
  let st1 := add_image_store st imageId fileSize meta
  if st1.currentMemory > (st.maxMemoryBytes : Int) then cleanup_old_images st1 else st1

/-- ImageCache.get_image: a miss when the id is unregistered; when the
registered file is missing from disk the stale entry is deregistered
(current_memory is left unchanged, lines 69-72) and the call misses;
otherwise a hit with no state change. -/
def get_image (st : CacheState) (imageId : String) : CacheState × Option Entry :=
  match getA st.registry imageId with
  | none => (st, none)
  | some e =>
      if (getA st.disk e.path).isSome then (st, some e)
      else ({ st with registry := delA st.registry imageId }, none)

/-- ImageCache.clear: remove every entry in insertion order, then reset
the ledger to zero (lines 103-108). -/
def clear (st : CacheState) : CacheState :=
  let st1 := (st.registry.map Prod.fst).foldl remove_image st
  { st1 with currentMemory := 0 }

/-- One ImageCache operation, for reasoning about operation sequences.
The eviction pass appears both inside add_image and as a stand-alone
operation. -/
inductive CacheOp where
  | addOp (imageId : String) (fileSize : Nat) (meta : ImgMeta)
  | getOp (imageId : String)
  | evictOp
  | clearOp
deriving DecidableEq

/-- Apply one operation to the cache state. -/
def applyOp (st : CacheState) : CacheOp → CacheState
  | .addOp i sz m => add_image st i sz m
  | .getOp i => (get_image st i).1
  | .evictOp => cleanup_old_images st
  | .clearOp => clear st

/-- Run an operation sequence from a fresh cache. -/
def runOps (cacheDir : String) (maxMemoryMb : Nat) (ops : List CacheOp) : CacheState :=
  ops.foldl applyOp (initCache cacheDir maxMemoryMb)

/-- Holds of sequences whose add operations always use an id that is not
currently registered (no re-put). -/
def freshOps (st : CacheState) : List CacheOp → Bool
  | [] => true
  | op :: rest =>
      (match op with
       | .addOp i _ _ => (getA st.registry i).isNone
       | _ => true) && freshOps (applyOp st op) rest

/-- Sum of the sizes recorded in the registry. -/
def sumSizes (reg : List (String × Entry)) : Nat :=
  (reg.map fun p => p.2.size).sum

/-- Total on-disk size of the files the registry entries reference
(0 for a missing file). -/
def diskSizes (st : CacheState) : Nat :=
  (st.registry.map fun p => (getA st.disk p.2.path).getD 0).sum

/-- The cache ledger invariant as specified: current_memory equals the
sum of the recorded sizes, that sum equals the total on-disk size of the
referenced files, and every registered entry's file exists on disk. -/
def cacheInvariant (st : CacheState) : Prop :=
  st.currentMemory = (sumSizes st.registry : Int) ∧
  sumSizes st.registry = diskSizes st ∧
  ∀ p ∈ st.registry, (getA st.disk p.2.path).isSome = true

/-- Strengthened invariant used for the induction: correct ledger, every
entry's file on disk with the recorded size, distinct registry keys, and
every entry's path the cache path of its id. -/
def cacheInvStrong (st : CacheState) : Prop :=
  st.currentMemory = (sumSizes st.registry : Int) ∧
  (∀ p ∈ st.registry, getA st.disk p.2.path = some p.2.size) ∧
  (st.registry.map Prod.fst).Nodup ∧
  ∀ p ∈ st.registry, p.2.path = get_cache_path st.cacheDir p.1

/-- Python str.strip() with no argument: drop whitespace from both ends
of the string. -/
def strip (s : String) : String :=
  String.mk (((s.data.dropWhile Char.isWhitespace).reverse.dropWhile Char.isWhitespace).reverse)

/-- Outcome of one page.extract_text() call inside its per-page try
block: none models a raised exception (logged and skipped), some s the
returned text (a Python None return is modelled as ""). -/
abbrev PageOutcome := Option String

/-- Behaviour of the pdfplumber pass of extract_text_from_pdf on a given
document: whether pdfplumber.open succeeds, the per-page outcomes, and an
optional abort point k (the page iteration itself raises after the first
k pages were processed, reaching the outer except handler). -/
structure PlumberRun where
  openOk : Bool
  pages : List PageOutcome
  abortAfter : Option Nat
deriving DecidableEq

/-- Behaviour of the pypdf pass. -/
inductive PypdfRun where
  /-- PdfReader construction raises pypdf.errors.PdfReadError. -/
  | readErr : PypdfRun
  /-- PdfReader construction raises some other exception. -/
  | otherErr : PypdfRun
  /-- Reader constructed: the is_encrypted flag, the per-page outcomes,
  and an optional abort point (k, isReadErr): the page iteration raises
  after the first k pages, as a PdfReadError exactly when isReadErr. -/
  | reader (encrypted : Bool) (pages : List PageOutcome) (abort : Option (Nat × Bool)) : PypdfRun
deriving DecidableEq

/-- Abstract model of one PDF document as seen by pdf_processor.py. -/
structure PdfModel where
  fileOk : Bool
  sizeZero : Bool
  plumber : PlumberRun
  pypdf : PypdfRun
deriving DecidableEq

/-- The distinct PDFProcessingError messages raised by
extract_text_from_pdf, one constructor per raise site.  `encrypted`
corresponds to the raise at line 58, which the claim expects to surface
for encrypted documents. -/
inductive PdfError where
  | notFound | emptyFile | encrypted | corrupted | noText
deriving DecidableEq

instance {ε α : Type} [DecidableEq ε] [DecidableEq α] : DecidableEq (Except ε α) := fun x y =>
  match x, y with
  | .ok a, .ok b =>
      decidable_of_iff (a = b) ⟨fun h => by rw [h], fun h => by injection h⟩
  | .error a, .error b =>
      decidable_of_iff (a = b) ⟨fun h => by rw [h], fun h => by injection h⟩
  | .ok _, .error _ => isFalse (fun h => by injection h)
  | .error _, .ok _ => isFalse (fun h => by injection h)

/-- page_texts[page_num] = page_text over a list of per-page outcomes,
keeping Python dict insertion order; only texts that are truthy and
non-blank after stripping are inserted (pdf_processor.py line 35). -/
def insertPages (acc : List (Nat × String)) (pages : List PageOutcome) (firstPage : Nat) :
    List (Nat × String) :=
  match pages with
  | [] => acc
  | o :: rest =>
      let acc1 := match o with
        | some t => if strip t ≠ "" then setA acc firstPage t else acc
        | none => acc
      insertPages acc1 rest (firstPage + 1)

/-- The pages actually iterated of a pass: all of them, or the first k
when the iteration aborts after k pages. -/
def iteratedPages (pages : List PageOutcome) : Option Nat → List PageOutcome
  | some k => pages.take k
  | none => pages

/-- The page_texts dict accumulated by the pdfplumber pass: empty when
pdfplumber.open raises, otherwise the result of iterating the (possibly
abort-truncated) pages. -/
def plumberAcc (r : PlumberRun) : List (Nat × String) :=
  if r.openOk then insertPages [] (iteratedPages r.pages r.abortAfter) 1 else []

/-- The final check of extract_text_from_pdf (lines 80-87): the generic
scanned/image-only error when page_texts is empty, the dict otherwise. -/
def finalCheck (acc : List (Nat × String)) : Except PdfError (List (Nat × String)) :=
  if acc = [] then .error .noText else .ok acc

/-- The pypdf pass (lines 51-77) continued from the page_texts dict left
by pdfplumber.  The encrypted raise at line 58 is a PDFProcessingError,
which the blanket `except Exception` at line 76 catches, so on an
encrypted document control falls through to the final check instead of
surfacing PdfError.encrypted; a PdfReadError instead propagates as the
corrupted error (lines 73-75). -/
def pypdfPhase (acc1 : List (Nat × String)) : PypdfRun → Except PdfError (List (Nat × String))
  | .readErr => .error .corrupted
  | .otherErr => finalCheck acc1
  | .reader encrypted pages abort =>
      if encrypted then finalCheck acc1
      else
        match abort with
        | some (_, true) => .error .corrupted
        | some (k, false) => finalCheck (insertPages acc1 (iteratedPages pages (some k)) 1)
        | none =>
            let acc2 := insertPages acc1 (iteratedPages pages none) 1
            if acc2 = [] then .error .noText else .ok acc2

/-- extract_text_from_pdf (pdf_processor.py lines 13-87).  The pdfplumber
pass runs first and returns early only when it completed without abort
and extracted at least one page; otherwise the pypdf pass continues with
the same page_texts dict. -/
def extract_text_from_pdf (m : PdfModel) : Except PdfError (List (Nat × String)) :=
  if ¬ m.fileOk then .error .notFound
  else if m.sizeZero then .error .emptyFile
  else if m.plumber.openOk ∧ m.plumber.abortAfter = none ∧ plumberAcc m.plumber ≠ [] then
    .ok (plumberAcc m.plumber)
  else pypdfPhase (plumberAcc m.plumber) m.pypdf

/-- A document on which no library pass aborts mid-iteration: the
formalisation of a (structurally) valid PDF. -/
def noAborts (m : PdfModel) : Bool :=
  m.plumber.abortAfter == none &&
    match m.pypdf with
    | .reader _ _ a => a == none
    | _ => true

/-- One extracted image record as produced by extract_images_from_pdf and
consumed by process_single_pdf: the 1-based page, the "type" value, the
"file_name" value, the optional 1-based "index" and "rect_index" keys
(present for embedded extraction only), and the bitmap, which is opaque
here. -/
structure ImgData where
  page : Nat
  kind : String
  fileName : String
  index : Option Nat
  rect_index : Option Nat
  payload : Nat
deriving DecidableEq

/-- The image id built in process_single_pdf (rag_engine.py lines 85-89):
f"{file_path.name}_p{page}_t{type}" plus "_i{index}" and "_r{rect_index}"
when those keys are present. -/
def image_id (pdfFileName : String) (d : ImgData) : String :=
  let base := pdfFileName ++ "_p" ++ toString d.page ++ "_t" ++ d.kind
  let base1 := match d.index with
    | some i => base ++ "_i" ++ toString i
    | none => base
  match d.rect_index with
  | some r => base1 ++ "_r" ++ toString r
  | none => base1

/-- The ids process_single_pdf derives for one extraction output. -/
def process_image_ids (pdfFileName : String) (imgs : List ImgData) : List String :=
  imgs.map (image_id pdfFileName)

/-- One full-page raster record from extract_images_high_quality: the
1-based page number and the dpi used to build the zoom matrix
(zoom = dpi / 72, image_handler.py lines 123-124). -/
structure PageImage where
  page : Nat
  dpiUsed : Nat
deriving DecidableEq

/-- Renders the pages whose rasterization succeeds, numbering from
firstPage; failed pages are logged and skipped. -/
def rasterPages (renderOk : List Bool) (dpi : Nat) (firstPage : Nat) : List PageImage :=
  match renderOk with
  | [] => []
  | ok :: rest => (if ok then [⟨firstPage, dpi⟩] else []) ++ rasterPages rest dpi (firstPage + 1)

/-- extract_images_high_quality (image_handler.py lines 111-146): every
page of the document is rasterized at the dpi this function receives. -/
def extract_images_high_quality (renderOk : List Bool) (dpi : Nat) : List PageImage :=
  rasterPages renderOk dpi 1

/-- The dispatch of extract_images_from_pdf (image_handler.py lines
242-255), restricted to the full-page records it produces (the embedded
strategy contributes none of these).  Each branch passes a hard-coded
dpi literal to extract_images_high_quality; the dpi parameter of the
entry point is never forwarded. -/
def extract_images_from_pdf (renderOk : List Bool) (method : String) (dpi : Nat) :
    List PageImage :=
  if method = "high_quality" then extract_images_high_quality renderOk 300
  else if method = "medium_quality" then extract_images_high_quality renderOk 150
  else if method = "embedded" then []
  else if method = "combined" then extract_images_high_quality renderOk 200
  else extract_images_high_quality renderOk 300

/-- One retrieved source node as read by create_multimodal_prompt: its
text and the metadata fields 'file_name', 'page' and 'image_ids' (none
models an absent key; the JSON string round-trip of image_ids is
modelled as the decoded list). -/
structure Node where
  fileName : Option String
  page : Option Nat
  text : String
  imageIds : Option (List String)
deriving DecidableEq

/-- An entry of image_documents (multimodal_query.py lines 66-70): the
1-based display number and the cached metadata; the PIL image itself is
opaque and omitted. -/
structure ImageDoc where
  number : Nat
  meta : ImgMeta
deriving DecidableEq

/-- The inline marker text part appended for one resolved image
(multimodal_query.py line 63). -/
def markerPart (d : ImageDoc) : String :=
  "\n[画像" ++ toString d.number ++ "]: " ++ d.meta.fileName ++ " - Page " ++ toString d.meta.page

/-- The inner image loop of create_multimodal_prompt (lines 56-72):
resolve each id in the cache (threading the cache state, since a miss on
a stale entry deregisters it), appending a marker text part and a
numbered image document for every hit and skipping misses. -/
def resolveImages (cache : CacheState) (ids : List String) (counter : Nat) :
    CacheState × List String × List ImageDoc × Nat :=
  match ids with
  | [] => (cache, [], [], counter)
  | i :: rest =>
      match get_image cache i with
      | (cache1, none) => resolveImages cache1 rest counter
      | (cache1, some e) =>
          let d : ImageDoc := ⟨counter, e.meta⟩
          let r := resolveImages cache1 rest (counter + 1)
          (r.1, markerPart d :: r.2.1, d :: r.2.2.1, r.2.2.2)

/-- The per-node loop of create_multimodal_prompt (lines 40-76): source
header parts, the node text, the resolved-image marker parts, and the
separator, with the display counter shared across nodes. -/
def promptNodes (cache : CacheState) (nodes : List Node) (idx : Nat) (counter : Nat) :
    CacheState × List String × List ImageDoc :=
  match nodes with
  | [] => (cache, [], [])
  | n :: rest =>
      let head := ["【ソース " ++ toString (idx + 1) ++ "】",
                   "ファイル: " ++ n.fileName.getD "Unknown",
                   "ページ: " ++ (match n.page with | some p => toString p | none => "?"),
                   "\n" ++ n.text ++ "\n"]
      let r1 := match n.imageIds with
        | some ids => resolveImages cache ids counter
        | none => (cache, [], [], counter)
      let r2 := promptNodes r1.1 rest (idx + 1) r1.2.2.2
      (r2.1, head ++ r1.2.1 ++ ["\n---\n"] ++ r2.2.1, r1.2.2.1 ++ r2.2.2)

/-- create_multimodal_prompt (multimodal_query.py lines 26-83): the
prompt's text parts (joined with a newline in the source), the numbered
image documents, and the possibly self-healed cache. -/
def create_multimodal_prompt (query : String) (nodes : List Node) (cache : CacheState) :
    List String × List ImageDoc × CacheState :=
  let intro := ["質問: " ++ query ++ "\n\n",
                "以下のコンテキストに基づいて質問に答えてください。\n",
                "画像がある場合は、画像の内容を参照して、文章中に「[画像1]」「[画像2]」のように番号で言及してください。\n\n"]
  let closing := ["\n回答の際は、関連する画像がある場合は「[画像1]」のように番号で言及してください。",
                  "画像の内容を参照して、具体的に説明してください。"]
  let r := promptNodes cache nodes 0 1
  (intro ++ r.2.1 ++ closing, r.2.2, r.1)

/-- The joined prompt text ("\n".join(text_parts), line 81). -/
def prompt_text (query : String) (nodes : List Node) (cache : CacheState) : String :=
  String.intercalate "\n" (create_multimodal_prompt query nodes cache).1

/-- One element of a message's content array (openai_client.py lines
145-156). -/
inductive ContentPart where
  | textPart (s : String)
  | imagePart (b64 : String) (detail : String)
deriving DecidableEq

/-- A chat message's content: a plain history string or a content
array. -/
inductive MsgContent where
  | plain (s : String)
  | parts (l : List ContentPart)
deriving DecidableEq

/-- One chat message. -/
structure ChatMsg where
  role : String
  content : MsgContent
deriving DecidableEq

/-- build_chat_messages (openai_client.py lines 114-160): the history
messages verbatim, then one user message whose content is the prompt
text followed by at most max_images image parts. -/
def build_chat_messages (promptText : String) (imageB64List : List String)
    (imageDetail : String) (maxImages : Nat) (chatHistory : List (String × String)) :
    List ChatMsg :=
  (chatHistory.map fun h => ⟨h.1, .plain h.2⟩) ++
    [⟨"user", .parts (.textPart promptText ::
        (imageB64List.take maxImages).map fun b => .imagePart b imageDetail)⟩]

/-- The image documents query_with_multimodal base64-encodes for the
request: image_documents[:max_images] (multimodal_query.py line 144). -/
def sent_images (docs : List ImageDoc) (maxImages : Nat) : List ImageDoc :=
  docs.take maxImages

/-- The messages query_with_multimodal hands to call_chat_api in the
vision branch; enc abstracts image_to_base64 applied to the document's
image. -/
def query_messages (enc : ImageDoc → String) (promptText : String) (docs : List ImageDoc)
    (imageDetail : String) (maxImages : Nat) (chatHistory : List (String × String)) :
    List ChatMsg :=
  build_chat_messages promptText ((sent_images docs maxImages).map enc)
    imageDetail maxImages chatHistory

/-- Number of image parts across all messages of a request. -/
def countImageParts (msgs : List ChatMsg) : Nat :=
  (msgs.map fun msg =>
    match msg.content with
    | .plain _ => 0
    | .parts l => (l.filter fun c =>
        match c with
        | .imagePart _ _ => true
        | .textPart _ => false).length).sum

/-- Longest prefix of decimal digits of a character list, with the
remainder. -/
def takeDigits : List Char → List Char × List Char
  | [] => ([], [])
  | c :: cs =>
      if c.isDigit then
        let r := takeDigits cs
        (c :: r.1, r.2)
      else ([], c :: cs)

/-- Value of a nonempty decimal digit string, as int() computes it. -/
def digitsToNat (ds : List Char) : Nat :=
  ds.foldl (fun n c => n * 10 + (c.toNat - 48)) 0

/-- Fuelled scanner for the pattern of re.split: a literal "[画像", one
or more digits, and a literal "]", producing the alternating text parts
and captured numbers (leftmost-first scan; on a failed partial match the
consumed "[" is flushed to the text buffer and scanning resumes, which
coincides with re's restart-at-next-position semantics because no match
can begin inside a failed "[画像<digits>" prefix).  Every step consumes
at least one character of s, so fuel = s.length never runs out; the
fuel-exhausted branch is unreachable. -/
def scanPartsAux : Nat → List Char → List Char → List (String ⊕ Nat)
  | _, cur, [] => [Sum.inl (String.mk cur.reverse)]
  | 0, cur, s => [Sum.inl (String.mk (cur.reverse ++ s))]
  | fuel + 1, cur, '[' :: '画' :: '像' :: rest =>
      let td := takeDigits rest
      if td.1 ≠ [] ∧ td.2.head? = some ']' then
        Sum.inl (String.mk cur.reverse) :: Sum.inr (digitsToNat td.1) ::
          scanPartsAux fuel [] td.2.tail
      else
        scanPartsAux fuel ('[' :: cur) ('画' :: '像' :: rest)
  | fuel + 1, cur, c :: rest => scanPartsAux fuel (c :: cur) rest

/-- re.split(r'\[画像(\d+)\]', answer) as its alternating text and
captured-number parts (multimodal_query.py lines 233-236). -/
def scanParts (s : List Char) : List (String ⊕ Nat) :=
  scanPartsAux s.length [] s

/-- One rendered output element of render_response_with_images: a
markdown text block or a displayed image.  There is no other output
form. -/
inductive Segment where
  | textSeg (s : String)
  | imageSeg (number : Nat) (meta : ImgMeta)
deriving DecidableEq

/-- The rendering loop of render_response_with_images (lines 238-254):
a text part is shown when non-blank after stripping; a number part shows
the first image document carrying that number, and shows nothing when no
document matches. -/
def renderParts (docs : List ImageDoc) : List (String ⊕ Nat) → List Segment
  | [] => []
  | Sum.inl s :: rest =>
      (if strip s ≠ "" then [Segment.textSeg s] else []) ++ renderParts docs rest
  | Sum.inr n :: rest =>
      (match docs.find? (fun d => d.number == n) with
       | some d => [Segment.imageSeg n d.meta]
       | none => []) ++ renderParts docs rest

/-- render_response_with_images (multimodal_query.py lines 226-255). -/
def render_response_with_images (answer : String) (docs : List ImageDoc) : List Segment :=
  renderParts docs (scanParts answer.data)

/-- First successful decode among the encodings tried in order
(rag_engine.py lines 144-154): none models a UnicodeDecodeError. -/
def firstDecode : List (Option String) → Option String
  | [] => none
  | some t :: _ => some t
  | none :: rest => firstDecode rest

/-- The per-file result record returned by process_text_file. -/
structure TextFileResult where
  success : Bool
  fileName : String
  documents : List String
  error : Option String
deriving DecidableEq

/-- process_text_file (rag_engine.py lines 139-180): try the encodings
in order; when no encoding succeeds, or the decoded text is falsy (the
empty string), the raised ValueError is caught and a failure record is
returned; otherwise one whole-file document is produced. -/
def process_text_file (fileName : String) (decodes : List (Option String)) : TextFileResult :=
  match firstDecode decodes with
  | some t =>
      if t = "" then ⟨false, fileName, [], some "すべてのエンコーディングで読み込みに失敗しました"⟩
      else ⟨true, fileName, [t], none⟩
  | none => ⟨false, fileName, [], some "すべてのエンコーディングで読み込みに失敗しました"⟩

/-- Metadata of the images used in the concrete test states. -/
def metaA : ImgMeta := ⟨"f.pdf", 1, "full_page"⟩

/-- Metadata of the second image used in the concrete test states. -/
def metaB : ImgMeta := ⟨"f.pdf", 2, "full_page"⟩

/-- A fresh-id operation sequence exercising every operation kind. -/
def opsFresh : List CacheOp :=
  [.addOp "a" 10 metaA, .getOp "a", .evictOp, .addOp "b" 5 metaB, .clearOp]

/-- A cache holding the two images "a" and "b". -/
def cacheAB : CacheState :=
  runOps "./image_cache" 500 [.addOp "a" 5 metaA, .addOp "b" 6 metaB]

/-- A node whose chunk references both cached images. -/
def nodeAB : Node := ⟨some "f.pdf", some 1, "body text", some ["a", "b"]⟩

/-- The valid PDF used as a concrete witness input: pdfplumber opens it
and extracts text on pages 1 and 4, page 2 is blank and page 3 raises;
the pypdf pass is never reached. -/
def pdfW : PdfModel :=
  ⟨true, false, ⟨true, [some "hello", some "  ", none, some "world"], none⟩, .readErr⟩

/-- Witness extraction output: two embedded records agreeing on every
id-relevant component but differing in bitmap and file_name value. -/
def imgW1 : ImgData := ⟨2, "embedded", "spec.pdf", some 1, some 1, 0⟩

/-- Second witness record; see imgW1. -/
def imgW2 : ImgData := ⟨2, "embedded", "other.pdf", some 1, some 1, 99⟩

instance (st : CacheState) : Decidable (cacheInvariant st) := by
  unfold cacheInvariant
  exact inferInstance

theorem getA_setA_self {κ α : Type} [DecidableEq κ] (l : List (κ × α)) (k : κ) (v : α) :
    getA (setA l k v) k = some v := by
  induction l with
  | nil => simp [setA, getA]
  | cons p rest ih =>
      obtain ⟨k1, v1⟩ := p
      by_cases h : k1 = k
      · simp [setA, getA, h]
      · simp [setA, getA, h, ih]

theorem getA_setA_ne {κ α : Type} [DecidableEq κ] (l : List (κ × α)) (k k1 : κ) (v : α)
    (h : k1 ≠ k) : getA (setA l k v) k1 = getA l k1 := by
  induction l with
  | nil => simp [setA, getA, Ne.symm h]
  | cons p rest ih =>
      obtain ⟨k2, v2⟩ := p
      by_cases h2 : k2 = k
      · subst h2
        simp [setA, getA, Ne.symm h]
      · simp only [setA, if_neg h2, getA]
        by_cases h3 : k2 = k1
        · simp [h3]
        · simp [h3, ih]

theorem getA_eq_none {κ α : Type} [DecidableEq κ] (l : List (κ × α)) (k : κ) :
    getA l k = none ↔ ∀ p ∈ l, p.1 ≠ k := by
  induction l with
  | nil => simp [getA]
  | cons p rest ih =>
      obtain ⟨k1, v1⟩ := p
      by_cases h : k1 = k
      · simp [getA, h]
      · simp [getA, h, ih]

theorem getA_mem {κ α : Type} [DecidableEq κ] (l : List (κ × α)) (k : κ) (v : α)
    (h : getA l k = some v) : (k, v) ∈ l := by
  induction l with
  | nil => simp [getA] at h
  | cons p rest ih =>
      obtain ⟨k1, v1⟩ := p
      by_cases h1 : k1 = k
      · subst h1
        simp [getA] at h
        simp [h]
      · simp only [getA, if_neg h1] at h
        exact List.mem_cons_of_mem _ (ih h)

theorem setA_of_absent {κ α : Type} [DecidableEq κ] (l : List (κ × α)) (k : κ) (v : α)
    (h : getA l k = none) : setA l k v = l ++ [(k, v)] := by
  induction l with
  | nil => simp [setA]
  | cons p rest ih =>
      obtain ⟨k1, v1⟩ := p
      by_cases h1 : k1 = k
      · simp [getA, h1] at h
      · simp only [getA, if_neg h1] at h
        simp [setA, h1, ih h]

theorem delA_sublist {κ α : Type} [DecidableEq κ] (l : List (κ × α)) (k : κ) :
    List.Sublist (delA l k) l := by
  induction l with
  | nil => simp [delA]
  | cons p rest ih =>
      obtain ⟨k1, v1⟩ := p
      by_cases h : k1 = k
      · simpa [delA, h] using List.sublist_cons_self _ _
      · simpa [delA, h] using ih.cons₂ (k1, v1)

theorem getA_delA_ne {κ α : Type} [DecidableEq κ] (l : List (κ × α)) (k k1 : κ)
    (h : k1 ≠ k) : getA (delA l k) k1 = getA l k1 := by
  induction l with
  | nil => simp [delA]
  | cons p rest ih =>
      obtain ⟨k2, v2⟩ := p
      by_cases h2 : k2 = k
      · subst h2
        simp [delA, getA, Ne.symm h]
      · simp only [delA, if_neg h2, getA]
        by_cases h3 : k2 = k1
        · simp [h3]
        · simp [h3, ih]

theorem mem_delA {κ α : Type} [DecidableEq κ] (l : List (κ × α)) (k : κ) (p : κ × α)
    (h : p ∈ delA l k) : p ∈ l :=
  (delA_sublist l k).subset h

theorem keyNe_of_mem_delA {κ α : Type} [DecidableEq κ] (l : List (κ × α)) (k : κ) (p : κ × α)
    (hnd : (l.map Prod.fst).Nodup) (h : p ∈ delA l k) : p.1 ≠ k := by
  induction l with
  | nil => simp [delA] at h
  | cons q rest ih =>
      obtain ⟨k1, v1⟩ := q
      simp only [List.map_cons, List.nodup_cons] at hnd
      by_cases h1 : k1 = k
      · subst h1
        simp only [delA, if_pos rfl] at h
        intro he
        refine hnd.1 ?_
        rw [← he]
        exact List.mem_map_of_mem Prod.fst h
      · simp only [delA, if_neg h1] at h
        rcases List.mem_cons.mp h with h2 | h2
        · subst h2
          exact h1
        · exact ih hnd.2 h2

theorem mem_keys_setA {κ α : Type} [DecidableEq κ] (l : List (κ × α)) (k a : κ) (v : α)
    (h : a ∈ (setA l k v).map Prod.fst) : a ∈ l.map Prod.fst ∨ a = k := by
  induction l with
  | nil =>
      simp only [setA, List.map_cons, List.map_nil, List.mem_singleton] at h
      exact Or.inr h
  | cons p rest ih =>
      obtain ⟨k1, v1⟩ := p
      by_cases h1 : k1 = k
      · simp only [setA, if_pos h1, List.map_cons, List.mem_cons] at h
        rcases h with h2 | h2
        · exact Or.inr h2
        · exact Or.inl (List.mem_cons_of_mem _ h2)
      · simp only [setA, if_neg h1, List.map_cons, List.mem_cons] at h ⊢
        rcases h with h2 | h2
        · exact Or.inl (Or.inl h2)
        · rcases ih h2 with h3 | h3
          · exact Or.inl (Or.inr h3)
          · exact Or.inr h3

theorem nodup_setA {κ α : Type} [DecidableEq κ] (l : List (κ × α)) (k : κ) (v : α)
    (hnd : (l.map Prod.fst).Nodup) : ((setA l k v).map Prod.fst).Nodup := by
  induction l with
  | nil => simp [setA]
  | cons p rest ih =>
      obtain ⟨k1, v1⟩ := p
      simp only [List.map_cons, List.nodup_cons] at hnd
      by_cases h1 : k1 = k
      · simp only [setA, if_pos h1, List.map_cons, List.nodup_cons]
        exact ⟨by rw [← h1]; exact hnd.1, hnd.2⟩
      · simp only [setA, if_neg h1, List.map_cons, List.nodup_cons]
        refine ⟨fun hmem => ?_, ih hnd.2⟩
        rcases mem_keys_setA rest k k1 v hmem with h2 | h2
        · exact hnd.1 h2
        · exact h1 h2

theorem nodup_delA {κ α : Type} [DecidableEq κ] (l : List (κ × α)) (k : κ)
    (hnd : (l.map Prod.fst).Nodup) : ((delA l k).map Prod.fst).Nodup :=
  ((delA_sublist l k).map Prod.fst).nodup hnd

theorem sumSizes_cons (k : String) (e : Entry) (rest : List (String × Entry)) :
    sumSizes ((k, e) :: rest) = e.size + sumSizes rest := by
  simp [sumSizes]

theorem sumSizes_append (l1 l2 : List (String × Entry)) :
    sumSizes (l1 ++ l2) = sumSizes l1 + sumSizes l2 := by
  simp [sumSizes]

theorem sumSizes_delA (l : List (String × Entry)) (k : String) (e : Entry)
    (h : getA l k = some e) : sumSizes l = sumSizes (delA l k) + e.size := by
  induction l with
  | nil => simp [getA] at h
  | cons p rest ih =>
      obtain ⟨k1, v1⟩ := p
      by_cases h1 : k1 = k
      · simp only [getA, if_pos h1] at h
        cases h
        simp [delA, h1, sumSizes_cons, Nat.add_comm]
      · simp only [getA, if_neg h1] at h
        simp only [delA, if_neg h1, sumSizes_cons, ih h]
        omega

theorem string_data_of_append (a b : String) : (a ++ b).data = a.data ++ b.data := rfl

theorem get_cache_path_inj (d a b : String) (h : get_cache_path d a = get_cache_path d b) :
    a = b := by
  unfold get_cache_path at h
  have h2 := congrArg String.data h
  simp only [string_data_of_append] at h2
  have h3 := List.append_cancel_right h2
  have h4 := List.append_cancel_left h3
  exact String.ext (by simpa using h4)

theorem remove_image_registry (st : CacheState) (k : String) (e : Entry)
    (rest : List (String × Entry)) (h : st.registry = (k, e) :: rest) :
    (remove_image st k).registry = rest := by
  unfold remove_image
  rw [h]
  simp [getA, delA]

theorem remove_image_strong (st : CacheState) (i : String) (h : cacheInvStrong st) :
    cacheInvStrong (remove_image st i) := by
  obtain ⟨hmem, hdisk, hnd, hpath⟩ := h
  unfold remove_image
  cases hget : getA st.registry i with
  | none => exact ⟨hmem, hdisk, hnd, hpath⟩
  | some e =>
      have hie : (i, e) ∈ st.registry := getA_mem _ _ _ hget
      have hepath : e.path = get_cache_path st.cacheDir i := hpath (i, e) hie
      refine ⟨?_, ?_, ?_, ?_⟩
      · have hs := sumSizes_delA st.registry i e hget
        simp only
        rw [hmem, hs]
        push_cast
        ring
      · intro p hp
        have hpl : p ∈ st.registry := mem_delA _ _ _ hp
        have hne : p.1 ≠ i := keyNe_of_mem_delA _ _ _ hnd hp
        have hpne : p.2.path ≠ e.path := by
          rw [hepath, hpath p hpl]
          intro hc
          exact hne (get_cache_path_inj _ _ _ hc)
        simp only
        rw [getA_delA_ne _ _ _ hpne]
        exact hdisk p hpl
      · exact nodup_delA _ _ hnd
      · intro p hp
        exact hpath p (mem_delA _ _ _ hp)

theorem foldl_remove_strong (ids : List String) (st : CacheState) (h : cacheInvStrong st) :
    cacheInvStrong (ids.foldl remove_image st) := by
  induction ids generalizing st with
  | nil => exact h
  | cons i rest ih => exact ih _ (remove_image_strong st i h)

theorem cleanup_strong (st : CacheState) (h : cacheInvStrong st) :
    cacheInvStrong (cleanup_old_images st) :=
  foldl_remove_strong _ _ h

theorem add_store_strong (st : CacheState) (i : String) (sz : Nat) (m : ImgMeta)
    (hfresh : getA st.registry i = none) (h : cacheInvStrong st) :
    cacheInvStrong (add_image_store st i sz m) := by
  obtain ⟨hmem, hdisk, hnd, hpath⟩ := h
  have hreg : setA st.registry i ⟨get_cache_path st.cacheDir i, m, sz⟩ =
      st.registry ++ [(i, ⟨get_cache_path st.cacheDir i, m, sz⟩)] :=
    setA_of_absent _ _ _ hfresh
  have hkeys : ∀ p ∈ st.registry, p.1 ≠ i := (getA_eq_none _ _).mp hfresh
  unfold add_image_store
  refine ⟨?_, ?_, ?_, ?_⟩
  · simp only [hreg, sumSizes_append, sumSizes_cons]
    rw [hmem]
    push_cast
    simp [sumSizes]
  · intro p hp
    simp only [hreg] at hp
    rcases List.mem_append.mp hp with h1 | h1
    · have hne : p.2.path ≠ get_cache_path st.cacheDir i := by
        rw [hpath p h1]
        intro hc
        exact hkeys p h1 (get_cache_path_inj _ _ _ hc)
      simp only
      rw [getA_setA_ne _ _ _ _ hne]
      exact hdisk p h1
    · simp only [List.mem_singleton] at h1
      subst h1
      simp only
      exact getA_setA_self _ _ _
  · simp only [hreg, List.map_append, List.map_cons, List.map_nil]
    rw [List.nodup_append]
    refine ⟨hnd, List.nodup_singleton _, ?_⟩
    intro a ha hb
    simp only [List.mem_singleton] at hb
    subst hb
    rcases List.mem_map.mp ha with ⟨p, hp, hpa⟩
    exact hkeys p hp hpa
  · intro p hp
    simp only [hreg] at hp
    rcases List.mem_append.mp hp with h1 | h1
    · exact hpath p h1
    · simp only [List.mem_singleton] at h1
      subst h1
      rfl

theorem add_image_strong (st : CacheState) (i : String) (sz : Nat) (m : ImgMeta)
    (hfresh : getA st.registry i = none) (h : cacheInvStrong st) :
    cacheInvStrong (add_image st i sz m) := by
  show cacheInvStrong
    (if (add_image_store st i sz m).currentMemory > (st.maxMemoryBytes : Int) then
      cleanup_old_images (add_image_store st i sz m)
    else add_image_store st i sz m)
  split
  · exact cleanup_strong _ (add_store_strong st i sz m hfresh h)
  · exact add_store_strong st i sz m hfresh h

theorem get_image_fst (st : CacheState) (i : String) (h : cacheInvStrong st) :
    (get_image st i).1 = st := by
  obtain ⟨hmem, hdisk, hnd, hpath⟩ := h
  unfold get_image
  cases hget : getA st.registry i with
  | none => rfl
  | some e =>
      have hie : (i, e) ∈ st.registry := getA_mem _ _ _ hget
      have := hdisk (i, e) hie
      simp only at this
      simp [this]

theorem foldl_remove_all (ks : List String) (st : CacheState) (h : cacheInvStrong st)
    (hks : ks = st.registry.map Prod.fst) :
    cacheInvStrong (ks.foldl remove_image st) ∧ (ks.foldl remove_image st).registry = [] := by
  induction ks generalizing st with
  | nil =>
      refine ⟨h, ?_⟩
      simpa using (List.map_eq_nil.mp hks.symm)
  | cons k rest ih =>
      cases hreg : st.registry with
      | nil => rw [hreg] at hks; simp at hks
      | cons p tl =>
          obtain ⟨k1, e⟩ := p
          rw [hreg] at hks
          simp only [List.map_cons, List.cons.injEq] at hks
          obtain ⟨hk, hrest⟩ := hks
          have hreg2 : st.registry = (k, e) :: tl := by rw [hreg, hk]
          have h1 : (remove_image st k).registry = tl := remove_image_registry st k e tl hreg2
          have h2 : cacheInvStrong (remove_image st k) := remove_image_strong st k h
          simpa using ih (remove_image st k) h2 (by rw [h1, hrest])

theorem clear_strong (st : CacheState) (h : cacheInvStrong st) :
    cacheInvStrong (clear st) := by
  obtain ⟨h1, h2⟩ := foldl_remove_all (st.registry.map Prod.fst) st h rfl
  unfold clear
  refine ⟨?_, ?_, ?_, ?_⟩
  · simp [h2, sumSizes]
  · intro p hp
    rw [h2] at hp
    simp at hp
  · simp [h2]
  · intro p hp
    rw [h2] at hp
    simp at hp

theorem run_fresh_strong (ops : List CacheOp) (st : CacheState) (h : cacheInvStrong st)
    (hf : freshOps st ops = true) : cacheInvStrong (ops.foldl applyOp st) := by
  induction ops generalizing st with
  | nil => exact h
  | cons op rest ih =>
      unfold freshOps at hf
      rw [Bool.and_eq_true] at hf
      refine ih (applyOp st op) ?_ hf.2
      cases op with
      | addOp i sz m =>
          have hfresh : getA st.registry i = none := by
            have := hf.1
            simpa [Option.isNone_iff_eq_none] using this
          exact add_image_strong st i sz m hfresh h
      | getOp i =>
          simpa [applyOp, get_image_fst st i h] using h
      | evictOp => exact cleanup_strong st h
      | clearOp => exact clear_strong st h

theorem strong_implies_inv (st : CacheState) (h : cacheInvStrong st) : cacheInvariant st := by
  obtain ⟨hmem, hdisk, hnd, hpath⟩ := h
  refine ⟨hmem, ?_, ?_⟩
  · unfold sumSizes diskSizes
    congr 1
    refine List.map_congr_left ?_
    intro p hp
    rw [hdisk p hp]
    rfl
  · intro p hp
    rw [hdisk p hp]
    rfl

theorem initCache_strong (d : String) (mb : Nat) : cacheInvStrong (initCache d mb) := by
  refine ⟨?_, ?_, ?_, ?_⟩ <;> simp [initCache, sumSizes]

/-- C1 (amended): for every operation sequence from a fresh cache in
which add_image is never called with an already-registered id, the
ledger invariant holds after the sequence: current_memory equals the sum
of the registered sizes, that sum equals the total on-disk size of the
referenced files, and every registered entry's file exists on disk.
(Every prefix of such a sequence is again such a sequence, so this
covers the state after each operation.)  The restriction is forced by
the counterexample: a re-put raw-increments the ledger. -/
theorem cache_invariant_fresh_adds (cacheDir : String) (maxMb : Nat) (ops : List CacheOp)
    (h : freshOps (initCache cacheDir maxMb) ops = true) :
    cacheInvariant (runOps cacheDir maxMb ops) :=
  strong_implies_inv _ (run_fresh_strong ops _ (initCache_strong cacheDir maxMb) h)

theorem cache_invariant_fresh_adds_witness :
    freshOps (initCache "./image_cache" 500) opsFresh = true ∧
      cacheInvariant (runOps "./image_cache" 500 opsFresh) :=
  ⟨by decide, cache_invariant_fresh_adds "./image_cache" 500 opsFresh (by decide)⟩

/-- C1 counterexample: adding id "a" with a 10-byte file and then again
with a 7-byte file leaves current_memory = 17 while the single registry
entry records size 7 (equal to the on-disk size), so the claimed
invariant fails after this operation sequence. -/
theorem cache_invariant_breaks_on_reput :
    ¬ cacheInvariant (runOps "./image_cache" 500 [.addOp "a" 10 metaA, .addOp "a" 7 metaA]) := by
  decide

/-- C2: re-putting id "a" (old file size 10, new file size 7) overwrites
the file and keeps exactly one registry entry of size 7, but add_image
raw-increments the ledger to 17 instead of applying the delta to 7: the
old size is never subtracted (image_handler.py line 49). -/
theorem add_image_raw_increment_on_reput :
    (runOps "./image_cache" 500 [.addOp "a" 10 metaA, .addOp "a" 7 metaA]).currentMemory = 17 ∧
      (runOps "./image_cache" 500 [.addOp "a" 10 metaA, .addOp "a" 7 metaA]).registry =
        [("a", ⟨get_cache_path "./image_cache" "a", metaA, 7⟩)] := by
  exact ⟨rfl, rfl⟩

theorem foldl_remove_take (reg : List (String × Entry)) (n : Nat) (st : CacheState)
    (hreg : st.registry = reg) (hnd : (reg.map Prod.fst).Nodup) :
    (((reg.map Prod.fst).take n).foldl remove_image st).registry = reg.drop n := by
  induction reg generalizing n st with
  | nil => simpa using hreg
  | cons p tl ih =>
      cases n with
      | zero => simpa using hreg
      | succ n =>
          obtain ⟨k, e⟩ := p
          simp only [List.map_cons, List.take_succ_cons, List.foldl_cons, List.drop_succ_cons]
          have h1 : (remove_image st k).registry = tl := remove_image_registry st k e tl hreg
          simp only [List.map_cons, List.nodup_cons] at hnd
          exact ih n (remove_image st k) h1 hnd.2

theorem cleanup_registry_drop (st : CacheState) (hnd : (st.registry.map Prod.fst).Nodup) :
    (cleanup_old_images st).registry = st.registry.drop (st.registry.length / 2) := by
  unfold cleanup_old_images
  exact foldl_remove_take st.registry _ st rfl hnd

/-- C3 (amended): whenever the raw ledger increment of a put exceeds
max_memory_bytes, the eviction pass runs — but it removes exactly the
first ⌊n/2⌋ registered entries in insertion order, with no guarantee
that the resulting memory is below the threshold (the guarantee fails,
see the counterexample). -/
theorem eviction_removes_half (st : CacheState) (i : String) (sz : Nat) (m : ImgMeta)
    (hnd : (st.registry.map Prod.fst).Nodup)
    (htr : (add_image_store st i sz m).currentMemory > (st.maxMemoryBytes : Int)) :
    add_image st i sz m = cleanup_old_images (add_image_store st i sz m) ∧
      (add_image st i sz m).registry =
        (add_image_store st i sz m).registry.drop
          ((add_image_store st i sz m).registry.length / 2) := by
  have h1 : add_image st i sz m = cleanup_old_images (add_image_store st i sz m) := by
    show (if (add_image_store st i sz m).currentMemory > (st.maxMemoryBytes : Int) then
        cleanup_old_images (add_image_store st i sz m)
      else add_image_store st i sz m) = cleanup_old_images (add_image_store st i sz m)
    rw [if_pos htr]
  have hnd2 : ((add_image_store st i sz m).registry.map Prod.fst).Nodup := by
    simp only [add_image_store]
    exact nodup_setA _ _ _ hnd
  refine ⟨h1, ?_⟩
  rw [h1]
  exact cleanup_registry_drop _ hnd2

theorem eviction_removes_half_witness :
    add_image (initCache "./c" 1) "b" 2000000 metaB =
        cleanup_old_images (add_image_store (initCache "./c" 1) "b" 2000000 metaB) ∧
      (add_image (initCache "./c" 1) "b" 2000000 metaB).registry =
        (add_image_store (initCache "./c" 1) "b" 2000000 metaB).registry.drop
          ((add_image_store (initCache "./c" 1) "b" 2000000 metaB).registry.length / 2) :=
  eviction_removes_half (initCache "./c" 1) "b" 2000000 metaB (by decide) (by decide)

/-- C3 counterexample: with max_memory set to 1 MB, adding a 1-byte
image and then a 2000000-byte image triggers the eviction pass (it
removes the one old entry, leaving one registered entry), yet
current_memory = 2000000 is still above the 1048576-byte threshold after
the pass: eviction does not continue until memory drops below the
limit. -/
theorem eviction_not_below_threshold :
    (runOps "./c" 1 [.addOp "a" 1 metaA, .addOp "b" 2000000 metaB]).currentMemory >
        ((runOps "./c" 1 [.addOp "a" 1 metaA, .addOp "b" 2000000 metaB]).maxMemoryBytes : Int) ∧
      (runOps "./c" 1 [.addOp "a" 1 metaA, .addOp "b" 2000000 metaB]).registry.length = 1 := by
  exact ⟨by decide, rfl⟩

/-- C4: on an encrypted document (pdfplumber opens it but extracts no
text, pypdf constructs its reader and reports is_encrypted), text
extraction does not surface the distinct encrypted error: the
PDFProcessingError raised at pdf_processor.py line 58 is caught by the
blanket `except Exception` at line 76, control falls through to the
final check, and the generic scanned/image-only error is raised
instead.  The pdfplumber extraction attempt has also already run. -/
theorem encrypted_pdf_error_swallowed :
    extract_text_from_pdf ⟨true, false, ⟨true, [none], none⟩, .reader true [some "secret"] none⟩
      = .error .noText := rfl

/-- C9: extract_images_from_pdf with method "high_quality" ignores its
dpi argument: called with dpi = 150 on a one-page document it still
rasterizes at the hard-coded 300 dpi (zoom 300/72), because line 243
passes the literal dpi=300 instead of the dpi parameter. -/
theorem high_quality_ignores_dpi :
    extract_images_from_pdf [true] "high_quality" 150 = [⟨1, 300⟩] := rfl

/-- C10: for every text file whose first successful decode yields the
empty string, process_text_file returns a failure record (success =
false with an error message) and produces no document: the empty text is
falsy at rag_engine.py line 156, so the ValueError path is taken. -/
theorem empty_text_file_fails (name : String) (decodes : List (Option String))
    (h : firstDecode decodes = some "") :
    (process_text_file name decodes).success = false ∧
      (process_text_file name decodes).documents = [] ∧
      (process_text_file name decodes).error.isSome = true := by
  unfold process_text_file
  rw [h]
  simp

theorem empty_text_file_fails_witness :
    (process_text_file "empty.txt" [some ""]).success = false ∧
      (process_text_file "empty.txt" [some ""]).documents = [] ∧
      (process_text_file "empty.txt" [some ""]).error.isSome = true :=
  empty_text_file_fails "empty.txt" [some ""] rfl

/-- C8: the image id derived by process_single_pdf depends only on the
processed file's name, the 1-based page, the extraction type, and the
optional image/rectangle sub-indices — not on the bitmap or any random
or time-dependent input — so two runs over componentwise-identical
extraction output produce identical id lists. -/
theorem image_ids_deterministic (name : String) (imgs1 imgs2 : List ImgData)
    (h : List.Forall₂ (fun a b => a.page = b.page ∧ a.kind = b.kind ∧
      a.index = b.index ∧ a.rect_index = b.rect_index) imgs1 imgs2) :
    process_image_ids name imgs1 = process_image_ids name imgs2 := by
  induction h with
  | nil => rfl
  | cons hab _ ih =>
      obtain ⟨h1, h2, h3, h4⟩ := hab
      simp only [process_image_ids, List.map_cons] at ih ⊢
      rw [List.cons_eq_cons]
      refine ⟨?_, ih⟩
      unfold image_id
      rw [h1, h2, h3, h4]

theorem image_ids_deterministic_witness :
    process_image_ids "spec.pdf" [imgW1] = process_image_ids "spec.pdf" [imgW2] :=
  image_ids_deterministic "spec.pdf" [imgW1] [imgW2]
    (List.Forall₂.cons ⟨rfl, rfl, rfl, rfl⟩ List.Forall₂.nil)

/-- The id of the spec's concrete embedded-extraction scenario. -/
theorem image_id_embedded_example :
    image_id "spec.pdf" ⟨2, "embedded", "spec.pdf", some 1, some 1, 0⟩
      = "spec.pdf_p2_tembedded_i1_r1" := rfl

theorem insertPages_spec (pages : List PageOutcome) (acc : List (Nat × String)) (start : Nat)
    (hlt : ∀ p ∈ acc, p.1 < start)
    (hch : (acc.map Prod.fst).Chain' (· < ·))
    (htr : ∀ p ∈ acc, strip p.2 ≠ "") :
    ((insertPages acc pages start).map Prod.fst).Chain' (· < ·) ∧
      (∀ p ∈ insertPages acc pages start, p.1 < start + pages.length) ∧
      (∀ p ∈ insertPages acc pages start, strip p.2 ≠ "") := by
  induction pages generalizing acc start with
  | nil =>
      refine ⟨hch, ?_, htr⟩
      intro p hp
      simpa using Nat.lt_of_lt_of_le (hlt p hp) (Nat.le_refl start)
  | cons o rest ih =>
      have hstep : ∀ acc1 : List (Nat × String),
          (∀ p ∈ acc1, p.1 < start + 1) →
          (acc1.map Prod.fst).Chain' (· < ·) →
          (∀ p ∈ acc1, strip p.2 ≠ "") →
          ((insertPages acc1 rest (start + 1)).map Prod.fst).Chain' (· < ·) ∧
            (∀ p ∈ insertPages acc1 rest (start + 1), p.1 < start + (o :: rest).length) ∧
            (∀ p ∈ insertPages acc1 rest (start + 1), strip p.2 ≠ "") := by
        intro acc1 ha hb hc
        obtain ⟨r1, r2, r3⟩ := ih acc1 (start + 1) ha hb hc
        refine ⟨r1, ?_, r3⟩
        intro p hp
        have := r2 p hp
        simp only [List.length_cons]
        omega
      by_cases ho : ∃ t, o = some t ∧ strip t ≠ ""
      · obtain ⟨t, rfl, htne⟩ := ho
        have habs : setA acc start t = acc ++ [(start, t)] := by
          refine setA_of_absent _ _ _ ((getA_eq_none _ _).mpr ?_)
          intro p hp
          exact Nat.ne_of_lt (hlt p hp)
        have hset : insertPages acc (some t :: rest) start =
            insertPages (acc ++ [(start, t)]) rest (start + 1) := by
          simp only [insertPages, if_pos htne, habs]
        rw [hset]
        refine hstep (acc ++ [(start, t)]) ?_ ?_ ?_
        · intro p hp
          rcases List.mem_append.mp hp with h1 | h1
          · exact Nat.lt_succ_of_lt (hlt p h1)
          · simp only [List.mem_singleton] at h1
            subst h1
            exact Nat.lt_succ_self start
        · rw [List.map_append]
          refine List.Chain'.append hch (by simp) ?_
          intro x hx y hy
          simp only [List.map_cons, List.map_nil, List.head?_cons, Option.mem_some_iff] at hy
          subst hy
          have hx2 : x ∈ acc.map Prod.fst := List.mem_of_mem_getLast? hx
          rcases List.mem_map.mp hx2 with ⟨p, hp, hpx⟩
          rw [← hpx]
          exact hlt p hp
        · intro p hp
          rcases List.mem_append.mp hp with h1 | h1
          · exact htr p h1
          · simp only [List.mem_singleton] at h1
            subst h1
            exact htne
      · have hskip : insertPages acc (o :: rest) start = insertPages acc rest (start + 1) := by
          cases o with
          | none => simp [insertPages]
          | some t =>
              have : ¬ strip t ≠ "" := fun hc => ho ⟨t, rfl, hc⟩
              simp [insertPages, this]
        rw [hskip]
        refine hstep acc ?_ hch htr
        intro p hp
        exact Nat.lt_succ_of_lt (hlt p hp)

/-- C7: for every valid PDF — one on which neither library pass aborts
mid-iteration — a successful text extraction returns a page map whose
keys are in strictly increasing page order and whose values are all
non-empty after stripping whitespace (blank pages are absent, never
present as empty entries). -/
theorem sorted_nonempty_of_clean_pass (ps : List (Nat × String)) (pgs : List PageOutcome)
    (hps : ps = insertPages [] pgs 1) :
    ((ps.map Prod.fst).Chain' (· < ·)) ∧ ∀ p ∈ ps, strip p.2 ≠ "" := by
  obtain ⟨r1, _, r3⟩ := insertPages_spec pgs [] 1 (by simp) (by simp) (by simp)
  rw [hps]
  exact ⟨r1, r3⟩

theorem extract_text_pages_sorted_nonempty (m : PdfModel) (ps : List (Nat × String))
    (hval : noAborts m = true) (hok : extract_text_from_pdf m = .ok ps) :
    ((ps.map Prod.fst).Chain' (· < ·)) ∧ ∀ p ∈ ps, strip p.2 ≠ "" := by
  unfold noAborts at hval
  rw [Bool.and_eq_true] at hval
  have hpa : m.plumber.abortAfter = none := by
    have := hval.1
    simpa using this
  unfold extract_text_from_pdf at hok
  split at hok
  · simp at hok
  split at hok
  · simp at hok
  split at hok
  · rename_i hcond
    simp only [Except.ok.injEq] at hok
    refine sorted_nonempty_of_clean_pass ps m.plumber.pages ?_
    rw [← hok]
    unfold plumberAcc
    rw [if_pos hcond.1, hpa]
    rfl
  · rename_i hcond
    have hacc : plumberAcc m.plumber = [] := by
      rw [not_and_or] at hcond
      rcases hcond with h1 | h1
      · unfold plumberAcc
        rw [if_neg (by simpa using h1)]
      · rw [not_and_or] at h1
        rcases h1 with h2 | h2
        · exact absurd hpa h2
        · simpa using h2
    rw [hacc] at hok
    cases hpy : m.pypdf with
    | readErr => rw [hpy] at hok; simp [pypdfPhase] at hok
    | otherErr =>
        rw [hpy] at hok
        simp [pypdfPhase, finalCheck] at hok
    | reader enc pages abort =>
        have hab : abort = none := by
          have := hval.2
          rw [hpy] at this
          simpa using this
        subst hab
        rw [hpy] at hok
        cases enc with
        | true => simp [pypdfPhase, finalCheck] at hok
        | false =>
            simp only [pypdfPhase, if_neg Bool.false_ne_true] at hok
            split at hok
            · simp at hok
            · simp only [Except.ok.injEq] at hok
              exact sorted_nonempty_of_clean_pass ps pages hok.symm

theorem range'_append_one (s m n : Nat) :
    List.range' s m ++ List.range' (s + m) n = List.range' s (m + n) := by
  induction m generalizing s with
  | zero => simp
  | succ m ih =>
      have h : m + 1 + n = (m + n) + 1 := by omega
      rw [h, List.range'_succ, List.range'_succ, List.cons_append]
      have h2 : s + (m + 1) = (s + 1) + m := by omega
      rw [h2]
      rw [ih (s + 1)]

theorem resolveImages_spec (ids : List String) (cache : CacheState) (counter : Nat) :
    (resolveImages cache ids counter).2.1 =
        (resolveImages cache ids counter).2.2.1.map markerPart ∧
      (resolveImages cache ids counter).2.2.1.map ImageDoc.number =
        List.range' counter (resolveImages cache ids counter).2.2.1.length ∧
      (resolveImages cache ids counter).2.2.2 =
        counter + (resolveImages cache ids counter).2.2.1.length := by
  induction ids generalizing cache counter with
  | nil => simp [resolveImages, List.range']
  | cons i rest ih =>
      cases hg : get_image cache i with
      | mk c1 o =>
          cases o with
          | none =>
              simp only [resolveImages, hg]
              exact ih c1 counter
          | some e =>
              simp only [resolveImages, hg]
              obtain ⟨r1, r2, r3⟩ := ih c1 (counter + 1)
              refine ⟨?_, ?_, ?_⟩
              · simp [List.map_cons, r1]
              · simp only [List.map_cons, List.length_cons, r2, List.range'_succ]
              · simp only [List.length_cons, r3]
                omega

theorem promptNodes_spec (nodes : List Node) (cache : CacheState) (idx counter : Nat) :
    (promptNodes cache nodes idx counter).2.2.map ImageDoc.number =
        List.range' counter (promptNodes cache nodes idx counter).2.2.length ∧
      ∀ d ∈ (promptNodes cache nodes idx counter).2.2,
        markerPart d ∈ (promptNodes cache nodes idx counter).2.1 := by
  induction nodes generalizing cache idx counter with
  | nil => simp [promptNodes, List.range']
  | cons n rest ih =>
      cases hids : n.imageIds with
      | none =>
          simp only [promptNodes, hids]
          obtain ⟨a1, a2⟩ := ih cache (idx + 1) counter
          refine ⟨by simpa using a1, ?_⟩
          intro d hd
          simp only [List.nil_append] at hd
          exact List.mem_append_right _ (a2 d hd)
      | some ids =>
          simp only [promptNodes, hids]
          obtain ⟨p1, p2, p3⟩ := resolveImages_spec ids cache counter
          obtain ⟨a1, a2⟩ :=
            ih (resolveImages cache ids counter).1 (idx + 1)
              (resolveImages cache ids counter).2.2.2
          refine ⟨?_, ?_⟩
          · rw [List.map_append, p2, a1, List.length_append, p3]
            exact range'_append_one _ _ _
          · intro d hd
            rcases List.mem_append.mp hd with hd1 | hd1
            · have hm : markerPart d ∈ (resolveImages cache ids counter).2.1 := by
                rw [p1]
                exact List.mem_map_of_mem markerPart hd1
              exact List.mem_append_left _ (List.mem_append_left _ (List.mem_append_right _ hm))
            · exact List.mem_append_right _ (a2 d hd1)

theorem filter_image_parts (det : String) (ll : List String) :
    List.filter (fun c =>
        match c with
        | ContentPart.imagePart _ _ => true
        | ContentPart.textPart _ => false)
      (ll.map fun b => ContentPart.imagePart b det) = ll.map fun b => ContentPart.imagePart b det := by
  induction ll with
  | nil => rfl
  | cons b tl ih => simp [List.filter_cons, ih]

theorem countImageParts_build (p : String) (l : List String) (det : String) (mx : Nat)
    (hist : List (String × String)) :
    countImageParts (build_chat_messages p l det mx hist) = min mx l.length := by
  unfold countImageParts build_chat_messages
  rw [List.map_append, List.sum_append]
  have h1 : ((hist.map fun h => (⟨h.1, .plain h.2⟩ : ChatMsg)).map fun msg =>
      match msg.content with
      | .plain _ => 0
      | .parts cl => (cl.filter fun c =>
          match c with
          | .imagePart _ _ => true
          | .textPart _ => false).length).sum = 0 := by
    induction hist with
    | nil => rfl
    | cons h rest ih => simpa using ih
  rw [h1]
  simp only [List.map_cons, List.map_nil, List.sum_cons, List.sum_nil, List.filter_cons,
    Nat.zero_add, Nat.add_zero]
  rw [if_neg (by simp)]
  rw [filter_image_parts]
  simp [List.length_take]

/-- C5 (amended): exactly min(maxImages, resolved) images are handed to
the model request, but the display numbers 1..resolved and their inline
markers are assigned to every resolved image during prompt assembly,
before the cap is applied — so the prompt's text parts contain the
marker part of every resolved image, including those beyond the cap that
are omitted from the request (the claim's "no marker beyond the cap"
fails, see the counterexample). -/
theorem prompt_markers_and_sent_images (enc : ImageDoc → String) (query : String)
    (nodes : List Node) (cache : CacheState) (detail : String) (maxImages : Nat)
    (hist : List (String × String)) :
    countImageParts (query_messages enc (prompt_text query nodes cache)
        (create_multimodal_prompt query nodes cache).2.1 detail maxImages hist)
      = min maxImages (create_multimodal_prompt query nodes cache).2.1.length ∧
    (create_multimodal_prompt query nodes cache).2.1.map ImageDoc.number
      = List.range' 1 (create_multimodal_prompt query nodes cache).2.1.length ∧
    ∀ d ∈ (create_multimodal_prompt query nodes cache).2.1,
      markerPart d ∈ (create_multimodal_prompt query nodes cache).1 := by
  obtain ⟨a1, a2⟩ := promptNodes_spec nodes cache 0 1
  refine ⟨?_, ?_, ?_⟩
  · unfold query_messages sent_images
    rw [countImageParts_build, List.length_map, List.length_take]
    omega
  · show (promptNodes cache nodes 0 1).2.2.map ImageDoc.number
      = List.range' 1 (promptNodes cache nodes 0 1).2.2.length
    exact a1
  · intro d hd
    have hm := a2 d hd
    show markerPart d ∈ _ ++ (promptNodes cache nodes 0 1).2.1 ++ _
    simp only [List.mem_append]
    exact Or.inl (Or.inr hm)

/-- C5 counterexample: one retrieved chunk references the two cached
images "a" (page 1) and "b" (page 2) and maxImages = 1: only image 1 is
included in the request, yet the prompt's text parts contain the inline
marker part "[画像2]" for the excluded image — the marker cap is applied
after marker assignment, not before. -/
theorem marker_beyond_cap_in_prompt :
    "\n[画像2]: f.pdf - Page 2" ∈ (create_multimodal_prompt "q" [nodeAB] cacheAB).1 ∧
      sent_images (create_multimodal_prompt "q" [nodeAB] cacheAB).2.1 1 =
        [⟨1, metaA⟩] := by
  exact ⟨by decide, by decide⟩

theorem renderParts_image_numbers (docs : List ImageDoc) (l : List (String ⊕ Nat)) :
    (renderParts docs l).filterMap (fun seg =>
        match seg with
        | Segment.imageSeg n _ => some n
        | Segment.textSeg _ => none)
      = l.filterMap (fun part =>
          match part with
          | Sum.inr n => if docs.any (fun d => d.number == n) then some n else none
          | Sum.inl _ => none) := by
  induction l with
  | nil => rfl
  | cons part rest ih =>
      cases part with
      | inl s =>
          by_cases h : strip s ≠ ""
          · simp only [renderParts, if_pos h, List.filterMap_append, List.filterMap_cons]
            simpa using ih
          · simp only [renderParts, if_neg h, List.filterMap_cons]
            simpa using ih
      | inr n =>
          cases hf : docs.find? (fun d => d.number == n) with
          | none =>
              have hany : docs.any (fun d => d.number == n) = false := by
                rw [List.any_eq_false]
                intro d hd
                have := List.find?_eq_none.mp hf d hd
                simpa using this
              simp only [renderParts, hf, List.filterMap_cons, hany]
              simpa using ih
          | some d =>
              have hmem := List.mem_of_find?_eq_some hf
              have hp := List.find?_some hf
              have hany : docs.any (fun d => d.number == n) = true :=
                List.any_eq_true.mpr ⟨d, hmem, hp⟩
              simp only [renderParts, hf, List.filterMap_cons, hany]
              simpa using ih

/-- C6 (amended): the image segments of the rendered answer are exactly
the markers whose number is assigned to an image in the current context,
in order; a marker whose number is not assigned produces no output
segment at all — it is silently dropped rather than rendered as a
visible unresolved-reference placeholder (see the counterexample). -/
theorem render_image_segments_matched_only (answer : String) (docs : List ImageDoc) :
    (render_response_with_images answer docs).filterMap (fun seg =>
        match seg with
        | Segment.imageSeg n _ => some n
        | Segment.textSeg _ => none)
      = (scanParts answer.data).filterMap (fun part =>
          match part with
          | Sum.inr n => if docs.any (fun d => d.number == n) then some n else none
          | Sum.inl _ => none) :=
  renderParts_image_numbers docs (scanParts answer.data)

/-- C6 counterexample: the answer "a[画像3]b" contains the marker
[画像3] while the context only assigns number 1; rendering yields just
the two text segments "a" and "b" — the marker produces no visible
error placeholder, it is silently dropped. -/
theorem unresolved_marker_dropped :
    render_response_with_images "a[画像3]b" [⟨1, metaA⟩]
      = [Segment.textSeg "a", Segment.textSeg "b"] := by
  decide

theorem extract_text_pages_sorted_nonempty_witness :
    ((([(1, "hello"), (4, "world")] : List (Nat × String)).map Prod.fst).Chain' (· < ·)) ∧
      ∀ p ∈ ([(1, "hello"), (4, "world")] : List (Nat × String)), strip p.2 ≠ "" :=
  extract_text_pages_sorted_nonempty pdfW [(1, "hello"), (4, "world")] (by decide) (by decide)

end MultimodalRAG
